import Mathlib

/-!
Verification of the IPL betting-pool settlement engine and its match store
(`data_utils.py`), as a shallow embedding in Lean.

Modelling conventions:
* Python strings are `String`; a Python value that may be `None` (a field read
  with `dict.get` from a possibly malformed record) is `Option String`, with
  `none` standing for `None`.
* Monetary amounts are `ℚ`.  `round(x, 2)` is modelled as exact rational
  round-half-even to two decimals (`pyRound2`); Python rounds the binary
  double, which agrees with the exact decimal rounding for all values that
  are not within one double-ulp of a two-decimal tie.
* Python `set` iteration order is unspecified; wherever the code iterates a
  set (owners union, non-voters) the model fixes roster/insertion order.
  All record names in the output are pairwise distinct, and the final
  DataFrame is sorted by the `Name` column, so the chosen order does not
  affect the returned rows.
* File I/O is dropped: the match store is a `List MatchData` threaded
  explicitly, `datetime.now().isoformat()` becomes an explicit timestamp
  argument, and `pd.concat` over per-match DataFrames is list `flatten`.
-/

namespace IplBetting

/-- One output row of the settlement DataFrame
(`Name, Game, Type, Team, BetOn, BetAmount, NetResult`). -/
structure BetRecord where
  name : String
  game : String
  type : String
  team : String
  betOn : Option String
  betAmount : ℚ
  netResult : ℚ
deriving Repr, DecidableEq

/-- One stored match record (`data/matches.json` entry).  Fields read with
`match.get(...)` may be absent, hence `Option`; the bettor lists default to
`[]` when missing. -/
structure MatchData where
  team1 : Option String
  team2 : Option String
  winner : Option String
  team1_bettors : List String
  team2_bettors : List String
  timestamp : Option String
  id : Option String
deriving Repr, DecidableEq

/-- How Python renders a value inside an f-string: `None` prints as "None". -/
def pyStr : Option String → String
  | some s => s
  | none => "None"

/-- The fixed roster of `load_players`: participant name paired with home
team, in source order. -/
def load_players : List (String × String) :=
  [("Gurpreet", "SRH"), ("Sreedhar", "SRH"), ("Utkarsh", "MI"),
   ("Jagjit", "DC"), ("Nishit", "MI"), ("Niraj", "CSK"),
   ("Adithya", "GT"), ("Parminder", "KKR"), ("Manish", "KKR"),
   ("Param", "RR"), ("Karam", "PBKS"), ("Shravan", "RCB"),
   ("Harman", "PBKS"), ("Atul", "GT"), ("Ankur", "RCB"),
   ("Amar", "LSG"), ("Anshuman", "CSK")]

/-- `player_team_map.get(k)` / `player_team_map[k]`: Python dict lookup.
The dict comprehension keeps the last binding of a duplicated key, hence
`getLast?`. -/
def dictGet (m : List (String × String)) (k : String) : Option String :=
  ((m.filter (fun p => p.1 = k)).getLast?).map (·.2)

/-- `team_owners_map[t]` as built by `load_players`: the owners of team `t`
in roster order (a missing key yields `[]`, matching `defaultdict`/`.get`). -/
def team_owners (players : List (String × String)) (t : String) : List String :=
  (players.filter (fun p => p.2 = t)).map (·.1)

/-- `team_owners_map.get(team1, [])` where `team1` may be `None` (never a
dict key, so `None` resolves to `[]`). -/
def optOwners (tom : String → List String) : Option String → List String
  | some t => tom t
  | none => []

/-- The deduplication loop of the code (`seen = set(); for b, t in ...`):
keep an element when its key has not been seen yet. -/
def pyDedupGo (key : α → String) (seen : List String) : List α → List α
  | [] => []
  | a :: rest =>
    if key a ∈ seen then pyDedupGo key seen rest
    else a :: pyDedupGo key (key a :: seen) rest

/-- Python `set(...)`/first-occurrence deduplication keyed by `key`:
keeps the first element with each key, in order of first occurrence. -/
def pyDedup (key : α → String) (l : List α) : List α := pyDedupGo key [] l

/-- `set(l)` for a list of names, iterated in first-occurrence order. -/
def dedupNames : List String → List String := pyDedup id

/-- The value a Python dict holds at key `k` after the assignment sequence
`l` (the last assignment wins); `0` if never assigned. -/
def lastAssign (l : List (String × ℚ)) (k : String) : ℚ :=
  (((l.filter (fun p => p.1 = k)).getLast?).map (·.2)).getD 0

/-- The `items()` of a Python dict built by the assignment sequence `l`:
keys in first-insertion order, each with its last assigned value. -/
def pyDictItems (l : List (String × ℚ)) : List (String × ℚ) :=
  (pyDedup Prod.fst l).map (fun p => (p.1, lastAssign l p.1))

/-- Round a rational to the nearest integer, ties to even — the rounding
mode of Python's built-in `round`. -/
def roundHalfEven (q : ℚ) : ℤ :=
  let f := ⌊q⌋
  if q - f < 1 / 2 then f
  else if 1 / 2 < q - f then f + 1
  else if f % 2 = 0 then f else f + 1

/-- `round(x, 2)`: round-half-even to two decimal places, on exact
rationals (see the header note on the binary-double caveat). -/
def pyRound2 (q : ℚ) : ℚ := (roundHalfEven (q * 100) : ℚ) / 100

/-- Lexicographic comparison of character lists by Unicode code point —
the order Python uses to compare `str` values. -/
def charsLe : List Char → List Char → Bool
  | [], _ => true
  | _ :: _, [] => false
  | a :: as, b :: bs => if a < b then true else if b < a then false else charsLe as bs

/-- The record order pandas `sort_values(by="Name")` produces: names
ascending, lexicographically by code point.  All names in one settlement
output are pairwise distinct, so any comparison sort agrees with this
stable insertion sort. -/
def byName (a b : BetRecord) : Prop := charsLe a.name.data b.name.data = true

instance : DecidableRel byName :=
  fun a b => inferInstanceAs (Decidable (charsLe a.name.data b.name.data = true))

/-- `game = f"{team1} vs {team2}"`. -/
def game_label (team1 team2 : Option String) : String :=
  pyStr team1 ++ " vs " ++ pyStr team2

/-- `team1_owners = set(team_owners_map.get(team1, []))` (and likewise for
team2): the owner set of one side, as a first-occurrence list. -/
def owners_set (team_owners_map : String → List String) (t : Option String) :
    List String :=
  dedupNames (optOwners team_owners_map t)

/-- `all_owners = team1_owners.union(team2_owners)`. -/
def all_owners (team_owners_map : String → List String)
    (team1 team2 : Option String) : List String :=
  dedupNames (owners_set team_owners_map team1 ++ owners_set team_owners_map team2)

/-- `non_voters = all_players - voted_players - all_owners`, listed in
roster order (Python iterates this set in unspecified order; the order is
immaterial, see the header note). -/
def non_voters (player_team_map : List (String × String))
    (team_owners_map : String → List String)
    (team1 team2 : Option String)
    (team1_bettors team2_bettors : List String) : List String :=
  (dedupNames (player_team_map.map (·.1))).filter
    (fun p => p ∉ team1_bettors ++ team2_bettors ∧
      p ∉ all_owners team_owners_map team1 team2)

/-- `losing_team = team2 if winner == team1 else team1`. -/
def losing_team (team1 team2 winner : Option String) : Option String :=
  if winner = team1 then team2 else team1

/-- The owner-stake assignment sequence (lines 77-93): the `owner_bets`
dict is built by these assignments, keyed on the two owner-set sizes. -/
def owner_assigns (team_owners_map : String → List String)
    (team1 team2 : Option String) : List (String × ℚ) :=
  if (owners_set team_owners_map team1).length = 1 ∧
      (owners_set team_owners_map team2).length = 1 then
    (all_owners team_owners_map team1 team2).map (fun o => (o, 15))
  else if (owners_set team_owners_map team1).length = 2 ∧
      (owners_set team_owners_map team2).length = 1 then
    (owners_set team_owners_map team1).map (fun o => (o, 15 / 2)) ++
      (owners_set team_owners_map team2).map (fun o => (o, 15))
  else if (owners_set team_owners_map team1).length = 1 ∧
      (owners_set team_owners_map team2).length = 2 then
    (owners_set team_owners_map team1).map (fun o => (o, 15)) ++
      (owners_set team_owners_map team2).map (fun o => (o, 15 / 2))
  else
    (all_owners team_owners_map team1 team2).map (fun o => (o, 15))

/-- The Owner rows (lines 95-105).  `player_team_map[owner]` raises
`KeyError` in Python when an owner is missing from the map; the model
returns the sentinel `"KeyError"` there, which is unreachable when both
maps come from `load_players`. -/
def owner_rows (player_team_map : List (String × String))
    (team_owners_map : String → List String)
    (team1 team2 winner : Option String) : List BetRecord :=
  (pyDictItems (owner_assigns team_owners_map team1 team2)).map (fun p =>
    let owner_team := (dictGet player_team_map p.1).getD "KeyError"
    { name := p.1, game := game_label team1 team2, type := "Owner",
      team := owner_team, betOn := some owner_team, betAmount := p.2,
      netResult := if some owner_team = winner then p.2 else -p.2 : BetRecord })

/-- `[b for b in bettors if b not in all_owners]` (lines 108-109). -/
def clean_bettors (bettors all_owners : List String) : List String :=
  bettors.filter (fun b => b ∉ all_owners)

/-- The concatenated `(bettor, team)` list (lines 112-117): cleaned team1
bettors, cleaned team2 bettors, then auto-assigned non-voters. -/
def non_owner_bettors (player_team_map : List (String × String))
    (team_owners_map : String → List String)
    (team1 team2 winner : Option String)
    (team1_bettors team2_bettors : List String) : List (String × Option String) :=
  (clean_bettors team1_bettors (all_owners team_owners_map team1 team2)).map
      (fun b => (b, team1)) ++
  (clean_bettors team2_bettors (all_owners team_owners_map team1 team2)).map
      (fun b => (b, team2)) ++
  (non_voters player_team_map team_owners_map team1 team2
      team1_bettors team2_bettors).map
      (fun nv => (nv, losing_team team1 team2 winner))

/-- `unique_non_owner_bettors` (lines 120-125): first-occurrence dedup by
bettor name. -/
def unique_non_owner_bettors (player_team_map : List (String × String))
    (team_owners_map : String → List String)
    (team1 team2 winner : Option String)
    (team1_bettors team2_bettors : List String) : List (String × Option String) :=
  pyDedup Prod.fst (non_owner_bettors player_team_map team_owners_map
    team1 team2 winner team1_bettors team2_bettors)

/-- `share = total_pool / len(winning_bettors) if winning_bettors else 0`
with `total_pool = len(unique_non_owner_bettors) * 8` (lines 127-129). -/
def pool_share (ubs : List (String × Option String)) (winner : Option String) : ℚ :=
  let winning_bettors := ubs.filter (fun p => p.2 = winner)
  if winning_bettors = [] then 0
  else (ubs.length * 8 : ℚ) / winning_bettors.length

/-- The Non-owner rows (lines 131-140). -/
def non_owner_rows (player_team_map : List (String × String))
    (team_owners_map : String → List String)
    (team1 team2 winner : Option String)
    (team1_bettors team2_bettors : List String) : List BetRecord :=
  let ubs := unique_non_owner_bettors player_team_map team_owners_map
    team1 team2 winner team1_bettors team2_bettors
  ubs.map (fun p =>
    { name := p.1, game := game_label team1 team2, type := "Non-owner",
      team := (dictGet player_team_map p.1).getD "Unknown",
      betOn := p.2, betAmount := 8,
      netResult := if p.2 = winner then pyRound2 (pool_share ubs winner - 8)
        else -8 : BetRecord })

/-- `compute_betting_result_df` (src/data_utils.py lines 53-144): the
settlement engine.  Owner rows and Non-owner rows, sorted by name. -/
def compute_betting_result_df
    (team1 team2 winner : Option String)
    (team1_bettors team2_bettors : List String)
    (player_team_map : List (String × String))
    (team_owners_map : String → List String) : List BetRecord :=
  List.insertionSort byName
    (owner_rows player_team_map team_owners_map team1 team2 winner ++
     non_owner_rows player_team_map team_owners_map team1 team2 winner
       team1_bettors team2_bettors)

/-- `save_match_data` (lines 147-171), pure core: stamps the record with the
supplied timestamp and with `id = str(len(existing_data))`, then appends. -/
def save_match_data (ts : String) (m : MatchData) (store : List MatchData) :
    List MatchData :=
  store ++ [{ m with timestamp := some ts, id := some (toString store.length) }]

/-- `update_match_data` (lines 185-204), pure core: replace the first record
whose id matches, preserving its timestamp and id; `break` stops the scan. -/
def update_match_data (matchId : String) (upd : MatchData) :
    List MatchData → List MatchData
  | [] => []
  | m :: rest =>
    if m.id = some matchId then
      { upd with timestamp := m.timestamp, id := some matchId } :: rest
    else
      m :: update_match_data matchId upd rest

/-- `delete_match_data` (lines 207-218), pure core: drop every record whose
id matches. -/
def delete_match_data (matchId : String) (store : List MatchData) :
    List MatchData :=
  store.filter (fun m => m.id ≠ some matchId)

/-- One mutation of the match store, as issued by the app layer. -/
inductive StoreOp where
  | save (ts : String) (m : MatchData)
  | update (matchId : String) (m : MatchData)
  | delete (matchId : String)
deriving Repr

/-- Apply one store operation. -/
def applyOp (store : List MatchData) : StoreOp → List MatchData
  | .save ts m => save_match_data ts m store
  | .update matchId m => update_match_data matchId m store
  | .delete matchId => delete_match_data matchId store

/-- Run a sequence of store operations starting from the empty store. -/
def applyOps (ops : List StoreOp) : List MatchData := ops.foldl applyOp []

/-- Settle one stored match with the `load_players` roster, reading each
field with the defaults of `regenerate_results` (lines 234-247). -/
def settle_match (m : MatchData) : List BetRecord :=
  compute_betting_result_df m.team1 m.team2 m.winner
    m.team1_bettors m.team2_bettors load_players (team_owners load_players)

/-- `regenerate_results` (lines 221-258), pure core: settle every stored
match in order and concatenate the per-match rows (`pd.concat` with
`ignore_index=True` keeps this order). -/
def regenerate_results (history : List MatchData) : List BetRecord :=
  (history.map settle_match).flatten

/-- The owner-stake schedule as the spec states it, keyed on the pair of
owner counts, for comparison with the engine's `owner_assigns` dict: 15
each for counts (1,1); 7.5 for team1 owners and 15 for team2 owners at
(2,1); the mirror at (1,2); 15 for every owner otherwise. -/
def spec_owner_stake (players : List (String × String)) (t1 t2 o : String) : ℚ :=
  if (team_owners players t1).length = 1 ∧ (team_owners players t2).length = 1 then 15
  else if (team_owners players t1).length = 2 ∧ (team_owners players t2).length = 1 then
    (if o ∈ team_owners players t1 then 15 / 2 else 15)
  else if (team_owners players t1).length = 1 ∧ (team_owners players t2).length = 2 then
    (if o ∈ team_owners players t1 then 15 else 15 / 2)
  else 15

/-! ### Properties of the deduplication loop -/

theorem pyDedupGo_subset {key : α → String} :
    ∀ {seen : List String} {l : List α} {b : α},
      b ∈ pyDedupGo key seen l → b ∈ l := by
  intro seen l
  induction l generalizing seen with
  | nil => intro b hb; simp [pyDedupGo] at hb
  | cons a rest ih =>
    intro b hb
    simp only [pyDedupGo] at hb
    by_cases h : key a ∈ seen
    · rw [if_pos h] at hb
      exact List.mem_cons_of_mem _ (ih hb)
    · rw [if_neg h] at hb
      rcases List.mem_cons.mp hb with hb | hb
      · exact hb ▸ List.mem_cons_self _ _
      · exact List.mem_cons_of_mem _ (ih hb)

theorem pyDedupGo_key_not_seen {key : α → String} :
    ∀ {seen : List String} {l : List α} {b : α},
      b ∈ pyDedupGo key seen l → key b ∉ seen := by
  intro seen l
  induction l generalizing seen with
  | nil => intro b hb; simp [pyDedupGo] at hb
  | cons a rest ih =>
    intro b hb
    simp only [pyDedupGo] at hb
    by_cases h : key a ∈ seen
    · rw [if_pos h] at hb
      exact ih hb
    · rw [if_neg h] at hb
      rcases List.mem_cons.mp hb with hb | hb
      · exact hb ▸ h
      · intro hs
        exact ih hb (List.mem_cons_of_mem _ hs)

theorem mem_key_pyDedupGo {key : α → String} :
    ∀ {seen : List String} {l : List α} {x : String},
      x ∈ (pyDedupGo key seen l).map key ↔ x ∈ l.map key ∧ x ∉ seen := by
  intro seen l
  induction l generalizing seen with
  | nil => intro x; simp [pyDedupGo]
  | cons a rest ih =>
    intro x
    simp only [pyDedupGo]
    by_cases h : key a ∈ seen
    · rw [if_pos h, ih]
      simp only [List.map_cons, List.mem_cons]
      constructor
      · rintro ⟨hx, hs⟩; exact ⟨Or.inr hx, hs⟩
      · rintro ⟨hx | hx, hs⟩
        · exact absurd (hx ▸ h) hs
        · exact ⟨hx, hs⟩
    · rw [if_neg h]
      simp only [List.map_cons, List.mem_cons, ih, List.mem_cons]
      constructor
      · rintro (hx | ⟨hx, hs⟩)
        · exact ⟨Or.inl hx, hx ▸ h⟩
        · exact ⟨Or.inr hx, fun hs2 => hs (Or.inr hs2)⟩
      · rintro ⟨hx | hx, hs⟩
        · exact Or.inl hx
        · by_cases hxa : x = key a
          · exact Or.inl hxa
          · exact Or.inr ⟨hx, fun hs2 => hs2.elim (fun e => hxa e) hs⟩

theorem nodup_key_pyDedupGo {key : α → String} :
    ∀ {seen : List String} {l : List α},
      ((pyDedupGo key seen l).map key).Nodup := by
  intro seen l
  induction l generalizing seen with
  | nil => simp [pyDedupGo]
  | cons a rest ih =>
    simp only [pyDedupGo]
    by_cases h : key a ∈ seen
    · rw [if_pos h]; exact ih
    · rw [if_neg h]
      simp only [List.map_cons, List.nodup_cons]
      refine ⟨fun hmem => ?_, ih⟩
      rcases List.mem_map.mp hmem with ⟨b, hb, hkb⟩
      exact pyDedupGo_key_not_seen hb (hkb ▸ List.mem_cons_self _ _)

theorem find?_pyDedupGo {key : α → String} :
    ∀ {seen : List String} {l : List α} {b : α},
      b ∈ pyDedupGo key seen l →
      l.find? (fun a => key a == key b) = some b := by
  intro seen l
  induction l generalizing seen with
  | nil => intro b hb; simp [pyDedupGo] at hb
  | cons a rest ih =>
    intro b hb
    simp only [pyDedupGo] at hb
    by_cases h : key a ∈ seen
    · rw [if_pos h] at hb
      have hne : key a ≠ key b := fun e => pyDedupGo_key_not_seen hb (e ▸ h)
      rw [List.find?_cons_of_neg _ (by simpa using hne)]
      exact ih hb
    · rw [if_neg h] at hb
      rcases List.mem_cons.mp hb with hb | hb
      · subst hb
        rw [List.find?_cons_of_pos _ (by simp)]
      · have hne : key a ≠ key b := by
          intro e
          refine pyDedupGo_key_not_seen hb ?_
          rw [← e]
          exact List.mem_cons_self _ _
        rw [List.find?_cons_of_neg _ (by simpa using hne)]
        exact ih hb

theorem mem_pyDedup {key : α → String} {l : List α} {b : α}
    (hb : b ∈ pyDedup key l) : b ∈ l :=
  pyDedupGo_subset hb

theorem mem_key_pyDedup {key : α → String} {l : List α} {x : String} :
    x ∈ (pyDedup key l).map key ↔ x ∈ l.map key := by
  unfold pyDedup
  rw [mem_key_pyDedupGo]
  simp

theorem nodup_key_pyDedup {key : α → String} {l : List α} :
    ((pyDedup key l).map key).Nodup :=
  nodup_key_pyDedupGo

theorem find?_pyDedup {key : α → String} {l : List α} {b : α}
    (hb : b ∈ pyDedup key l) : l.find? (fun a => key a == key b) = some b :=
  find?_pyDedupGo hb

theorem mem_dedupNames {l : List String} {x : String} :
    x ∈ dedupNames l ↔ x ∈ l := by
  have := @mem_key_pyDedup String id l x
  simpa [dedupNames] using this

theorem nodup_dedupNames {l : List String} : (dedupNames l).Nodup := by
  have := @nodup_key_pyDedup String id l
  simpa [dedupNames] using this

/-! ### Generic list helpers -/

theorem find?_append_left {l₁ l₂ : List α} {p : α → Bool}
    (h : (l₁.find? p).isSome) : (l₁ ++ l₂).find? p = l₁.find? p := by
  induction l₁ with
  | nil => simp [List.find?] at h
  | cons a rest ih =>
    by_cases ha : p a
    · simp [List.find?_cons_of_pos _ ha]
    · rw [List.find?_cons_of_neg _ ha] at h
      rw [List.cons_append, List.find?_cons_of_neg _ ha,
        List.find?_cons_of_neg _ ha]
      exact ih h

theorem find?_append_none {l₁ l₂ : List α} {p : α → Bool}
    (h : l₁.find? p = none) : (l₁ ++ l₂).find? p = l₂.find? p := by
  induction l₁ with
  | nil => simp
  | cons a rest ih =>
    by_cases ha : p a
    · rw [List.find?_cons_of_pos _ ha] at h; exact absurd h (by simp)
    · rw [List.find?_cons_of_neg _ ha] at h
      rw [List.cons_append, List.find?_cons_of_neg _ ha]
      exact ih h

theorem find?_beq_self {l : List String} {x : String} (h : x ∈ l) :
    l.find? (fun b => b == x) = some x := by
  induction l with
  | nil => simp at h
  | cons a rest ih =>
    by_cases ha : a = x
    · subst ha; rw [List.find?_cons_of_pos _ (by simp)]
    · rw [List.find?_cons_of_neg _ (by simpa using ha)]
      rcases List.mem_cons.mp h with h2 | h2
      · exact absurd h2.symm ha
      · exact ih h2

theorem countP_key_of_nodup {key : α → String} {l : List α}
    (h : (l.map key).Nodup) (x : String) :
    l.countP (fun b => key b == x) =
      if x ∈ l.map key then 1 else 0 := by
  induction l with
  | nil => simp
  | cons a rest ih =>
    simp only [List.map_cons, List.nodup_cons] at h
    rw [List.countP_cons, ih h.2]
    by_cases ha : key a = x
    · subst ha
      rw [if_neg h.1]
      simp
    · simp only [List.map_cons, List.mem_cons]
      by_cases hx : x ∈ rest.map key
      · rw [if_pos hx, if_pos (Or.inr hx)]
        simp [ha]
      · have hor : ¬(x = key a ∨ x ∈ rest.map key) := by
          rintro (e | e)
          · exact ha e.symm
          · exact hx e
        rw [if_neg hx, if_neg hor]
        simp [ha]

theorem sum_map_ite {l : List α} {q : α → Prop} [DecidablePred q] {A B : ℚ} :
    (l.map (fun b => if q b then A else B)).sum =
      (l.countP (fun b => decide (q b)) : ℚ) * A +
      (l.countP (fun b => !(decide (q b))) : ℚ) * B := by
  induction l with
  | nil => simp
  | cons a rest ih =>
    simp only [List.map_cons, List.sum_cons, ih, List.countP_cons]
    by_cases ha : q a
    · simp only [ha, decide_True, Bool.not_true, if_true, if_false]
      push_cast
      ring
    · simp only [ha, decide_False, Bool.not_false, if_true, if_false]
      push_cast
      ring

/-! ### Dict-assignment and lookup lemmas -/

theorem lastAssign_map_const {l : List String} {c : ℚ} {x : String} :
    lastAssign (l.map (fun o => (o, c))) x = if x ∈ l then c else 0 := by
  unfold lastAssign
  rw [List.filter_map]
  have hcomp : ((fun p : String × ℚ => decide (p.1 = x)) ∘ fun o => (o, c)) =
      fun o => decide (o = x) := rfl
  rw [hcomp, List.getLast?_map, Option.map_map]
  by_cases hx : x ∈ l
  · rw [if_pos hx]
    have hne : l.filter (fun o => decide (o = x)) ≠ [] :=
      List.ne_nil_of_mem (List.mem_filter.mpr ⟨hx, by simp⟩)
    rcases Option.isSome_iff_exists.mp (List.getLast?_isSome.mpr hne) with ⟨b, hb⟩
    rw [hb]
    rfl
  · rw [if_neg hx]
    have h0 : l.filter (fun o => decide (o = x)) = [] := by
      rw [List.filter_eq_nil_iff]
      intro a ha hax
      exact hx ((by simpa using hax) ▸ ha)
    rw [h0]
    rfl

theorem lastAssign_append {l₁ l₂ : List (String × ℚ)} {x : String} :
    lastAssign (l₁ ++ l₂) x =
      if x ∈ l₂.map Prod.fst then lastAssign l₂ x else lastAssign l₁ x := by
  unfold lastAssign
  rw [List.filter_append, List.getLast?_append]
  by_cases hx : x ∈ l₂.map Prod.fst
  · rw [if_pos hx]
    rcases List.mem_map.mp hx with ⟨p, hp, hpx⟩
    have hne : l₂.filter (fun p => decide (p.1 = x)) ≠ [] :=
      List.ne_nil_of_mem (List.mem_filter.mpr ⟨hp, by simp [hpx]⟩)
    rcases Option.isSome_iff_exists.mp (List.getLast?_isSome.mpr hne) with ⟨b, hb⟩
    rw [hb]
    rfl
  · rw [if_neg hx]
    have h0 : l₂.filter (fun p => decide (p.1 = x)) = [] := by
      rw [List.filter_eq_nil_iff]
      intro p hp hpx
      exact hx (List.mem_map.mpr ⟨p, hp, by simpa using hpx⟩)
    rw [h0]
    simp

theorem mem_team_owners {players : List (String × String)} {o t : String} :
    o ∈ team_owners players t ↔ (o, t) ∈ players := by
  unfold team_owners
  simp only [List.mem_map, List.mem_filter]
  constructor
  · rintro ⟨p, ⟨hp, hpt⟩, hpo⟩
    have hpe : p = (o, t) := by
      rcases p with ⟨p1, p2⟩
      simp only at hpo
      simp only [decide_eq_true_eq] at hpt
      rw [hpo, hpt]
    exact hpe ▸ hp
  · intro h
    exact ⟨(o, t), ⟨h, by simp⟩, rfl⟩

theorem pair_eq_of_nodup_fst {l : List (String × String)}
    (h : (l.map Prod.fst).Nodup) {o t t' : String}
    (h1 : (o, t) ∈ l) (h2 : (o, t') ∈ l) : t = t' := by
  induction l with
  | nil => simp at h1
  | cons a rest ih =>
    simp only [List.map_cons, List.nodup_cons] at h
    rcases List.mem_cons.mp h1 with e1 | m1
    · rcases List.mem_cons.mp h2 with e2 | m2
      · rw [← e1] at e2
        exact (congrArg Prod.snd e2).symm
      · exfalso
        exact h.1 (List.mem_map.mpr ⟨(o, t'), m2, by rw [← e1]⟩)
    · rcases List.mem_cons.mp h2 with e2 | m2
      · exfalso
        exact h.1 (List.mem_map.mpr ⟨(o, t), m1, by rw [← e2]⟩)
      · exact ih h.2 m1 m2

theorem dictGet_of_mem_nodup {l : List (String × String)}
    (h : (l.map Prod.fst).Nodup) {o t : String} (hm : (o, t) ∈ l) :
    dictGet l o = some t := by
  induction l with
  | nil => simp at hm
  | cons a rest ih =>
    simp only [List.map_cons, List.nodup_cons] at h
    unfold dictGet
    rcases List.mem_cons.mp hm with e | m
    · have hfrest : rest.filter (fun p => decide (p.1 = o)) = [] := by
        rw [List.filter_eq_nil_iff]
        intro p hp hpo
        exact h.1 (by
          rw [← e] at *
          exact List.mem_map.mpr ⟨p, hp, by simpa using hpo⟩)
      rw [List.filter_cons_of_pos (by simp [← e]), hfrest]
      rw [← e]
      rfl
    · by_cases hao : a.1 = o
      · exfalso
        exact h.1 (List.mem_map.mpr ⟨(o, t), m, hao.symm⟩)
      · rw [List.filter_cons_of_neg (by simpa using hao)]
        exact ih h.2 m

theorem nodup_team_owners {players : List (String × String)}
    (h : (players.map Prod.fst).Nodup) (t : String) :
    (team_owners players t).Nodup := by
  unfold team_owners
  exact ((List.filter_sublist players).map Prod.fst).nodup h

theorem pyDedupGo_eq_self {l : List String}
    (hn : l.Nodup) : ∀ {seen : List String}, (∀ x ∈ l, x ∉ seen) →
      pyDedupGo id seen l = l := by
  induction l with
  | nil => intro seen _; rfl
  | cons a rest ih =>
    intro seen hs
    simp only [List.nodup_cons] at hn
    unfold pyDedupGo
    simp only [id_eq]
    rw [if_neg (hs a (List.mem_cons_self _ _))]
    congr 1
    refine ih hn.2 ?_
    intro x hx hxs
    rcases List.mem_cons.mp hxs with e | m
    · exact hn.1 (e ▸ hx)
    · exact hs x (List.mem_cons_of_mem _ hx) m

theorem dedupNames_of_nodup {l : List String} (hn : l.Nodup) :
    dedupNames l = l :=
  pyDedupGo_eq_self hn (fun _ _ h => by simp at h)

/-! ### Rounding bounds -/

theorem abs_roundHalfEven_sub (q : ℚ) : |(roundHalfEven q : ℚ) - q| ≤ 1 / 2 := by
  unfold roundHalfEven
  have h0 : (0 : ℚ) ≤ q - ⌊q⌋ := by
    have := Int.floor_le q
    linarith
  have h1 : q - ⌊q⌋ < 1 := by
    have := Int.lt_floor_add_one q
    linarith
  by_cases hlt : q - ⌊q⌋ < 1 / 2
  · rw [if_pos hlt, abs_sub_le_iff]
    constructor <;> linarith
  · rw [if_neg hlt]
    by_cases hgt : 1 / 2 < q - ⌊q⌋
    · rw [if_pos hgt, abs_sub_le_iff]
      push_cast
      constructor <;> linarith
    · rw [if_neg hgt]
      have heq : q - ⌊q⌋ = 1 / 2 := le_antisymm (not_lt.mp hgt) (not_lt.mp hlt)
      by_cases hev : ⌊q⌋ % 2 = 0
      · rw [if_pos hev, abs_sub_le_iff]
        constructor <;> linarith
      · rw [if_neg hev, abs_sub_le_iff]
        push_cast
        constructor <;> linarith

theorem abs_pyRound2_sub (q : ℚ) : |pyRound2 q - q| ≤ 1 / 200 := by
  unfold pyRound2
  have h := abs_roundHalfEven_sub (q * 100)
  have he : (roundHalfEven (q * 100) : ℚ) / 100 - q =
      ((roundHalfEven (q * 100) : ℚ) - q * 100) / 100 := by ring
  rw [he, abs_div]
  have h100 : |(100 : ℚ)| = 100 := by norm_num
  rw [h100]
  linarith

/-! ### The output order is a total preorder -/

theorem charsLe_total : ∀ as bs : List Char,
    charsLe as bs = true ∨ charsLe bs as = true := by
  intro as
  induction as with
  | nil => intro bs; left; rfl
  | cons a as ih =>
    intro bs
    cases bs with
    | nil => right; rfl
    | cons b bs =>
      simp only [charsLe]
      rcases lt_trichotomy a b with h | h | h
      · left; rw [if_pos h]
      · subst h
        simp only [lt_irrefl, if_false]
        exact ih bs
      · right; rw [if_pos h]

theorem charsLe_trans : ∀ as bs cs : List Char,
    charsLe as bs = true → charsLe bs cs = true → charsLe as cs = true := by
  intro as
  induction as with
  | nil => intro bs cs _ _; rfl
  | cons a as ih =>
    intro bs cs h1 h2
    cases bs with
    | nil => simp [charsLe] at h1
    | cons b bs =>
      cases cs with
      | nil => simp [charsLe] at h2
      | cons c cs =>
        simp only [charsLe] at h1 h2 ⊢
        rcases lt_trichotomy a b with hab | hab | hab
        · rcases lt_trichotomy b c with hbc | hbc | hbc
          · rw [if_pos (lt_trans hab hbc)]
          · subst hbc; rw [if_pos hab]
          · rw [if_neg (lt_asymm hbc), if_pos hbc] at h2
            simp at h2
        · subst hab
          rw [if_neg (lt_irrefl a), if_neg (lt_irrefl a)] at h1
          rcases lt_trichotomy a c with hac | hac | hac
          · rw [if_pos hac]
          · subst hac
            rw [if_neg (lt_irrefl a), if_neg (lt_irrefl a)] at h2
            rw [if_neg (lt_irrefl a), if_neg (lt_irrefl a)]
            exact ih bs cs h1 h2
          · rw [if_neg (not_lt.mpr (le_of_lt hac)), if_pos hac] at h2
            simp at h2
        · rw [if_neg (not_lt.mpr (le_of_lt hab)), if_pos hab] at h1
          simp at h1

theorem byName_isTotal : ∀ a b : BetRecord, byName a b ∨ byName b a :=
  fun a b => charsLe_total a.name.data b.name.data

theorem byName_isTrans : ∀ a b c : BetRecord, byName a b → byName b c → byName a c :=
  fun a b c => charsLe_trans a.name.data b.name.data c.name.data

/-! ### Engine-level decomposition lemmas -/

theorem compute_perm (ptm : List (String × String)) (tom : String → List String)
    (t1 t2 w : Option String) (b1 b2 : List String) :
    List.Perm (compute_betting_result_df t1 t2 w b1 b2 ptm tom)
      (owner_rows ptm tom t1 t2 w ++ non_owner_rows ptm tom t1 t2 w b1 b2) :=
  List.perm_insertionSort _ _

theorem mem_compute_iff {ptm : List (String × String)} {tom : String → List String}
    {t1 t2 w : Option String} {b1 b2 : List String} {r : BetRecord} :
    r ∈ compute_betting_result_df t1 t2 w b1 b2 ptm tom ↔
      r ∈ owner_rows ptm tom t1 t2 w ∨
      r ∈ non_owner_rows ptm tom t1 t2 w b1 b2 := by
  rw [(compute_perm ptm tom t1 t2 w b1 b2).mem_iff, List.mem_append]

theorem countP_compute {ptm : List (String × String)} {tom : String → List String}
    {t1 t2 w : Option String} {b1 b2 : List String} (p : BetRecord → Bool) :
    (compute_betting_result_df t1 t2 w b1 b2 ptm tom).countP p =
      (owner_rows ptm tom t1 t2 w).countP p +
      (non_owner_rows ptm tom t1 t2 w b1 b2).countP p := by
  rw [(compute_perm ptm tom t1 t2 w b1 b2).countP_eq, List.countP_append]

theorem mem_owner_rows {ptm : List (String × String)} {tom : String → List String}
    {t1 t2 w : Option String} {r : BetRecord} :
    r ∈ owner_rows ptm tom t1 t2 w ↔
      ∃ p ∈ pyDictItems (owner_assigns tom t1 t2),
        r = { name := p.1, game := game_label t1 t2, type := "Owner",
              team := (dictGet ptm p.1).getD "KeyError",
              betOn := some ((dictGet ptm p.1).getD "KeyError"),
              betAmount := p.2,
              netResult := if some ((dictGet ptm p.1).getD "KeyError") = w
                then p.2 else -p.2 } := by
  unfold owner_rows
  simp only [List.mem_map]
  constructor
  · rintro ⟨p, hp, hr⟩
    exact ⟨p, hp, hr.symm⟩
  · rintro ⟨p, hp, hr⟩
    exact ⟨p, hp, hr.symm⟩

theorem mem_non_owner_rows {ptm : List (String × String)}
    {tom : String → List String} {t1 t2 w : Option String}
    {b1 b2 : List String} {r : BetRecord} :
    r ∈ non_owner_rows ptm tom t1 t2 w b1 b2 ↔
      ∃ p ∈ unique_non_owner_bettors ptm tom t1 t2 w b1 b2,
        r = { name := p.1, game := game_label t1 t2, type := "Non-owner",
              team := (dictGet ptm p.1).getD "Unknown",
              betOn := p.2, betAmount := 8,
              netResult := if p.2 = w then
                  pyRound2 (pool_share
                    (unique_non_owner_bettors ptm tom t1 t2 w b1 b2) w - 8)
                else -8 } := by
  unfold non_owner_rows
  simp only [List.mem_map]
  constructor
  · rintro ⟨p, hp, hr⟩
    exact ⟨p, hp, hr.symm⟩
  · rintro ⟨p, hp, hr⟩
    exact ⟨p, hp, hr.symm⟩

theorem owner_rows_type {ptm : List (String × String)} {tom : String → List String}
    {t1 t2 w : Option String} {r : BetRecord}
    (hr : r ∈ owner_rows ptm tom t1 t2 w) : r.type = "Owner" := by
  rcases mem_owner_rows.mp hr with ⟨p, _, he⟩
  rw [he]

theorem non_owner_rows_type {ptm : List (String × String)}
    {tom : String → List String} {t1 t2 w : Option String}
    {b1 b2 : List String} {r : BetRecord}
    (hr : r ∈ non_owner_rows ptm tom t1 t2 w b1 b2) : r.type = "Non-owner" := by
  rcases mem_non_owner_rows.mp hr with ⟨p, _, he⟩
  rw [he]

theorem mem_keys_owner_assigns {tom : String → List String}
    {t1 t2 : Option String} {x : String} :
    x ∈ (owner_assigns tom t1 t2).map Prod.fst ↔ x ∈ all_owners tom t1 t2 := by
  unfold owner_assigns
  split_ifs with h1 h2 h3 <;>
    simp [all_owners, mem_dedupNames, List.map_map, List.map_append,
      Function.comp, List.mem_append]

theorem countP_name_owner_rows {ptm : List (String × String)}
    {tom : String → List String} {t1 t2 w : Option String} (x : String) :
    (owner_rows ptm tom t1 t2 w).countP (fun r => r.name == x) =
      if x ∈ all_owners tom t1 t2 then 1 else 0 := by
  unfold owner_rows pyDictItems
  rw [List.countP_map, List.countP_map]
  show (pyDedup Prod.fst (owner_assigns tom t1 t2)).countP
      (fun p => p.1 == x) = _
  rw [countP_key_of_nodup nodup_key_pyDedup x]
  by_cases hx : x ∈ all_owners tom t1 t2
  · rw [if_pos (mem_key_pyDedup.mpr (mem_keys_owner_assigns.mpr hx)), if_pos hx]
  · rw [if_neg (fun hmem => hx (mem_keys_owner_assigns.mp
      (mem_key_pyDedup.mp hmem))), if_neg hx]

theorem countP_name_non_owner_rows {ptm : List (String × String)}
    {tom : String → List String} {t1 t2 w : Option String}
    {b1 b2 : List String} (x : String) :
    (non_owner_rows ptm tom t1 t2 w b1 b2).countP (fun r => r.name == x) =
      if x ∈ (non_owner_bettors ptm tom t1 t2 w b1 b2).map Prod.fst
        then 1 else 0 := by
  unfold non_owner_rows unique_non_owner_bettors
  rw [List.countP_map]
  show (pyDedup Prod.fst (non_owner_bettors ptm tom t1 t2 w b1 b2)).countP
      (fun p => p.1 == x) = _
  rw [countP_key_of_nodup nodup_key_pyDedup x]
  by_cases hx : x ∈ (non_owner_bettors ptm tom t1 t2 w b1 b2).map Prod.fst
  · rw [if_pos (mem_key_pyDedup.mpr hx), if_pos hx]
  · rw [if_neg (fun hmem => hx (mem_key_pyDedup.mp hmem)), if_neg hx]

theorem not_owner_of_mem_nob_keys {ptm : List (String × String)}
    {tom : String → List String} {t1 t2 w : Option String}
    {b1 b2 : List String} {x : String}
    (hx : x ∈ (non_owner_bettors ptm tom t1 t2 w b1 b2).map Prod.fst) :
    x ∉ all_owners tom t1 t2 := by
  rcases List.mem_map.mp hx with ⟨p, hp, hpx⟩
  subst hpx
  unfold non_owner_bettors at hp
  rcases List.mem_append.mp hp with hp | hp3
  · rcases List.mem_append.mp hp with hp1 | hp2
    · rcases List.mem_map.mp hp1 with ⟨b, hb, he⟩
      have := (List.mem_filter.mp hb).2
      simp only [clean_bettors] at hb
      have hb2 := (List.mem_filter.mp hb).2
      rw [← he]
      simpa using hb2
    · rcases List.mem_map.mp hp2 with ⟨b, hb, he⟩
      simp only [clean_bettors] at hb
      have hb2 := (List.mem_filter.mp hb).2
      rw [← he]
      simpa using hb2
  · rcases List.mem_map.mp hp3 with ⟨b, hb, he⟩
    simp only [non_voters] at hb
    have hb2 := (List.mem_filter.mp hb).2
    rw [← he]
    simp only [decide_eq_true_eq] at hb2
    exact hb2.2

theorem pool_share_nonempty {ubs : List (String × Option String)}
    {w : Option String} (h : ubs.filter (fun p => p.2 = w) ≠ []) :
    pool_share ubs w =
      (ubs.length * 8 : ℚ) / ((ubs.filter (fun p => p.2 = w)).length : ℚ) := by
  unfold pool_share
  rw [if_neg h]

theorem countP_type_non_owner {ptm : List (String × String)}
    {tom : String → List String} {t1 t2 w : Option String}
    {b1 b2 : List String} :
    (compute_betting_result_df t1 t2 w b1 b2 ptm tom).countP
        (fun r => r.type == "Non-owner") =
      (unique_non_owner_bettors ptm tom t1 t2 w b1 b2).length := by
  rw [countP_compute]
  have h1 : (owner_rows ptm tom t1 t2 w).countP (fun r => r.type == "Non-owner") = 0 := by
    rw [List.countP_eq_zero]
    intro r hr
    rw [owner_rows_type hr]
    decide
  have h2 : (non_owner_rows ptm tom t1 t2 w b1 b2).countP
      (fun r => r.type == "Non-owner") =
      (non_owner_rows ptm tom t1 t2 w b1 b2).length := by
    rw [List.countP_eq_length]
    intro r hr
    rw [non_owner_rows_type hr]
    decide
  have h3 : (non_owner_rows ptm tom t1 t2 w b1 b2).length =
      (unique_non_owner_bettors ptm tom t1 t2 w b1 b2).length := by
    simp [non_owner_rows]
  rw [h1, h2, h3, Nat.zero_add]

theorem owners_set_eq_of_nodup {players : List (String × String)}
    (hnd : (players.map Prod.fst).Nodup) (t : String) :
    owners_set (team_owners players) (some t) = team_owners players t := by
  unfold owners_set optOwners
  exact dedupNames_of_nodup (nodup_team_owners hnd t)

theorem mem_all_owners {tom : String → List String} {t1 t2 : Option String}
    {x : String} :
    x ∈ all_owners tom t1 t2 ↔
      x ∈ owners_set tom t1 ∨ x ∈ owners_set tom t2 := by
  unfold all_owners
  rw [mem_dedupNames, List.mem_append]

theorem owners_ne_of_nodup {players : List (String × String)}
    (hnd : (players.map Prod.fst).Nodup) {t1 t2 o : String}
    (h1 : o ∈ team_owners players t1) (h2 : o ∈ team_owners players t2) :
    t1 = t2 :=
  pair_eq_of_nodup_fst hnd (mem_team_owners.mp h1) (mem_team_owners.mp h2)

theorem lastAssign_owner_assigns {players : List (String × String)}
    (hnd : (players.map Prod.fst).Nodup) {t1 t2 o : String}
    (ho : o ∈ team_owners players t1 ∨ o ∈ team_owners players t2) :
    lastAssign (owner_assigns (team_owners players) (some t1) (some t2)) o =
      spec_owner_stake players t1 t2 o := by
  have hao : o ∈ all_owners (team_owners players) (some t1) (some t2) := by
    rw [mem_all_owners, owners_set_eq_of_nodup hnd, owners_set_eq_of_nodup hnd]
    exact ho
  unfold owner_assigns spec_owner_stake
  rw [owners_set_eq_of_nodup hnd, owners_set_eq_of_nodup hnd]
  have hkeys2 : ∀ (c : ℚ),
      ((team_owners players t2).map (fun o => (o, c))).map Prod.fst =
        team_owners players t2 := by
    intro c
    rw [List.map_map]
    exact List.map_id _
  by_cases h11 : (team_owners players t1).length = 1 ∧
      (team_owners players t2).length = 1
  · rw [if_pos h11, if_pos h11, lastAssign_map_const, if_pos hao]
  · rw [if_neg h11, if_neg h11]
    by_cases h21 : (team_owners players t1).length = 2 ∧
        (team_owners players t2).length = 1
    · rw [if_pos h21, if_pos h21, lastAssign_append, hkeys2 15]
      by_cases h2 : o ∈ team_owners players t2
      · have hni : o ∉ team_owners players t1 := by
          intro h1
          have he := owners_ne_of_nodup hnd h1 h2
          rw [he] at h21
          omega
        rw [if_pos h2, if_neg hni, lastAssign_map_const, if_pos h2]
      · have h1 : o ∈ team_owners players t1 := ho.resolve_right h2
        rw [if_neg h2, if_pos h1, lastAssign_map_const, if_pos h1]
    · rw [if_neg h21, if_neg h21]
      by_cases h12 : (team_owners players t1).length = 1 ∧
          (team_owners players t2).length = 2
      · rw [if_pos h12, if_pos h12, lastAssign_append, hkeys2 (15 / 2)]
        by_cases h2 : o ∈ team_owners players t2
        · have hni : o ∉ team_owners players t1 := by
            intro h1
            have he := owners_ne_of_nodup hnd h1 h2
            rw [he] at h12
            omega
          rw [if_pos h2, if_neg hni, lastAssign_map_const, if_pos h2]
        · have h1 : o ∈ team_owners players t1 := ho.resolve_right h2
          rw [if_neg h2, if_pos h1, lastAssign_map_const, if_pos h1]
      · rw [if_neg h12, if_neg h12, lastAssign_map_const, if_pos hao]

theorem mem_pyDictItems {l : List (String × ℚ)} {p : String × ℚ}
    (hp : p ∈ pyDictItems l) : p.2 = lastAssign l p.1 := by
  unfold pyDictItems at hp
  rcases List.mem_map.mp hp with ⟨q, hq, he⟩
  rw [← he]

theorem mem_pyDictItems_key {l : List (String × ℚ)} {p : String × ℚ}
    (hp : p ∈ pyDictItems l) : p.1 ∈ l.map Prod.fst := by
  unfold pyDictItems at hp
  rcases List.mem_map.mp hp with ⟨q, hq, he⟩
  have hq1 : q.1 ∈ l.map Prod.fst :=
    List.mem_map_of_mem Prod.fst (mem_pyDedup hq)
  rw [← he]
  exact hq1

theorem mem_clean_bettors {b ao : List String} {x : String} :
    x ∈ clean_bettors b ao ↔ x ∈ b ∧ x ∉ ao := by
  simp [clean_bettors, List.mem_filter]

theorem mem_non_voters {ptm : List (String × String)}
    {tom : String → List String} {t1 t2 : Option String}
    {b1 b2 : List String} {x : String} :
    x ∈ non_voters ptm tom t1 t2 b1 b2 ↔
      x ∈ ptm.map Prod.fst ∧ x ∉ b1 ++ b2 ∧ x ∉ all_owners tom t1 t2 := by
  simp [non_voters, List.mem_filter, mem_dedupNames]

theorem nob_keys_eq {ptm : List (String × String)}
    {tom : String → List String} {t1 t2 w : Option String}
    {b1 b2 : List String} :
    (non_owner_bettors ptm tom t1 t2 w b1 b2).map Prod.fst =
      clean_bettors b1 (all_owners tom t1 t2) ++
      clean_bettors b2 (all_owners tom t1 t2) ++
      non_voters ptm tom t1 t2 b1 b2 := by
  unfold non_owner_bettors
  rw [List.map_append, List.map_append, List.map_map, List.map_map,
    List.map_map]
  have h1 : (Prod.fst ∘ fun b : String => (b, t1)) = id := rfl
  have h2 : (Prod.fst ∘ fun b : String => (b, t2)) = id := rfl
  have h3 : (Prod.fst ∘ fun nv : String => (nv, losing_team t1 t2 w)) = id := rfl
  rw [h1, h2, h3, List.map_id, List.map_id, List.map_id]

theorem mem_owners_set_roster {players : List (String × String)}
    {topt : Option String} {x : String}
    (hx : x ∈ owners_set (team_owners players) topt) :
    x ∈ players.map Prod.fst := by
  rcases topt with _ | t
  · simp [owners_set, optOwners, dedupNames, pyDedup, pyDedupGo] at hx
  · unfold owners_set optOwners at hx
    rw [mem_dedupNames] at hx
    exact List.mem_map_of_mem Prod.fst (mem_team_owners.mp hx)

theorem exists_name_iff {ptm : List (String × String)}
    {tom : String → List String} {t1 t2 w : Option String}
    {b1 b2 : List String} {x : String} :
    (∃ r ∈ compute_betting_result_df t1 t2 w b1 b2 ptm tom, r.name = x) ↔
      x ∈ all_owners tom t1 t2 ∨
      x ∈ (non_owner_bettors ptm tom t1 t2 w b1 b2).map Prod.fst := by
  constructor
  · rintro ⟨r, hr, hx⟩
    rcases mem_compute_iff.mp hr with hro | hrn
    · left
      rcases mem_owner_rows.mp hro with ⟨p, hp, he⟩
      have hk := mem_pyDictItems_key hp
      rw [mem_keys_owner_assigns] at hk
      have : r.name = p.1 := by rw [he]
      rw [← hx, this]
      exact hk
    · right
      rcases mem_non_owner_rows.mp hrn with ⟨p, hp, he⟩
      have hk : p.1 ∈ (non_owner_bettors ptm tom t1 t2 w b1 b2).map Prod.fst :=
        List.mem_map_of_mem Prod.fst (mem_pyDedup hp)
      have : r.name = p.1 := by rw [he]
      rw [← hx, this]
      exact hk
  · intro h
    have hpos : 0 < (compute_betting_result_df t1 t2 w b1 b2 ptm tom).countP
        (fun r => r.name == x) := by
      rw [countP_compute, countP_name_owner_rows, countP_name_non_owner_rows]
      rcases h with h | h
      · rw [if_pos h]
        omega
      · rw [if_pos h]
        omega
    rcases List.countP_pos_iff.mp hpos with ⟨r, hr, hrx⟩
    exact ⟨r, hr, by simpa using hrx⟩

theorem sum_net_non_owner (ptm : List (String × String))
    (tom : String → List String) (t1 t2 w : Option String)
    (b1 b2 : List String) :
    (((compute_betting_result_df t1 t2 w b1 b2 ptm tom).filter
        (fun r => r.type == "Non-owner")).map (fun r => r.netResult)).sum =
      ((unique_non_owner_bettors ptm tom t1 t2 w b1 b2).countP
          (fun p => decide (p.2 = w)) : ℚ) *
        pyRound2 (pool_share (unique_non_owner_bettors ptm tom t1 t2 w b1 b2)
          w - 8) +
      ((unique_non_owner_bettors ptm tom t1 t2 w b1 b2).countP
          (fun p => !(decide (p.2 = w))) : ℚ) * (-8) := by
  have hperm := ((compute_perm ptm tom t1 t2 w b1 b2).filter
    (fun r => r.type == "Non-owner")).map (fun r => r.netResult)
  rw [hperm.sum_eq, List.filter_append]
  have ho : (owner_rows ptm tom t1 t2 w).filter
      (fun r => r.type == "Non-owner") = [] := by
    rw [List.filter_eq_nil_iff]
    intro r hr
    rw [owner_rows_type hr]
    decide
  have hn : (non_owner_rows ptm tom t1 t2 w b1 b2).filter
      (fun r => r.type == "Non-owner") =
      non_owner_rows ptm tom t1 t2 w b1 b2 := by
    rw [List.filter_eq_self]
    intro r hr
    rw [non_owner_rows_type hr]
    decide
  rw [ho, hn, List.nil_append]
  have hrw : (non_owner_rows ptm tom t1 t2 w b1 b2).map (fun r => r.netResult) =
      (unique_non_owner_bettors ptm tom t1 t2 w b1 b2).map
        (fun p => if p.2 = w then
          pyRound2 (pool_share (unique_non_owner_bettors ptm tom t1 t2 w b1 b2)
            w - 8) else -8) := by
    simp only [non_owner_rows, List.map_map]
    rfl
  rw [hrw, sum_map_ite]

theorem abs_sum_bound {n wn : ℕ} (hwn : 0 < wn) (hle : wn ≤ n) (R : ℚ)
    (hR : |R - (((n : ℚ) * 8) / (wn : ℚ) - 8)| ≤ 1 / 200) :
    |(wn : ℚ) * R + (((n - wn : ℕ) : ℚ)) * (-8)| ≤ (n : ℚ) / 200 := by
  have hwq : (0 : ℚ) < (wn : ℚ) := by exact_mod_cast hwn
  have hcast : ((n - wn : ℕ) : ℚ) = (n : ℚ) - (wn : ℚ) := Nat.cast_sub hle
  have key : (wn : ℚ) * R + ((n : ℚ) - (wn : ℚ)) * (-8) =
      (wn : ℚ) * (R - (((n : ℚ) * 8) / (wn : ℚ) - 8)) := by
    field_simp
    ring
  rw [hcast, key, abs_mul, abs_of_pos hwq]
  calc (wn : ℚ) * |R - (((n : ℚ) * 8) / (wn : ℚ) - 8)|
      ≤ (wn : ℚ) * (1 / 200) := mul_le_mul_of_nonneg_left hR (le_of_lt hwq)
    _ ≤ (n : ℚ) * (1 / 200) := by
        have : (wn : ℚ) ≤ (n : ℚ) := by exact_mod_cast hle
        exact mul_le_mul_of_nonneg_right this (by norm_num)
    _ = (n : ℚ) / 200 := by ring

theorem compute_sorted {ptm : List (String × String)}
    {tom : String → List String} {t1 t2 w : Option String}
    {b1 b2 : List String} :
    List.Sorted byName (compute_betting_result_df t1 t2 w b1 b2 ptm tom) := by
  haveI : IsTotal BetRecord byName := ⟨byName_isTotal⟩
  haveI : IsTrans BetRecord byName := ⟨byName_isTrans⟩
  exact List.sorted_insertionSort byName _

/-! ### The claims -/

/-- C1: in every settlement call every unique non-owner bettor stakes
exactly 8 (one Non-owner record each, `BetAmount = 8`); with `n` the count
of unique non-owner bettors and `w` the count of those whose assigned team
equals the winner, a record on the winning side has
`NetResult = round(n*8/w - 8, 2)` and a record not on the winning side has
`NetResult = -8` exactly (when `w = 0` no record is on the winning side,
so every non-owner record gets `-8`). -/
theorem claim_C1 (ptm : List (String × String)) (tom : String → List String)
    (t1 t2 w : Option String) (b1 b2 : List String) :
    (compute_betting_result_df t1 t2 w b1 b2 ptm tom).countP
        (fun r => r.type == "Non-owner") =
      (unique_non_owner_bettors ptm tom t1 t2 w b1 b2).length ∧
    ∀ r ∈ compute_betting_result_df t1 t2 w b1 b2 ptm tom,
      r.type = "Non-owner" →
        r.betAmount = 8 ∧
        (r.betOn = w → r.netResult = pyRound2
          (((unique_non_owner_bettors ptm tom t1 t2 w b1 b2).length * 8 : ℚ) /
            (((unique_non_owner_bettors ptm tom t1 t2 w b1 b2).filter
              (fun p => p.2 = w)).length : ℚ) - 8)) ∧
        (r.betOn ≠ w → r.netResult = -8) := by
  refine ⟨countP_type_non_owner, ?_⟩
  intro r hr htype
  rcases mem_compute_iff.mp hr with hro | hrn
  · rw [owner_rows_type hro] at htype
    exact absurd htype (by decide)
  · rcases mem_non_owner_rows.mp hrn with ⟨p, hp, he⟩
    subst he
    refine ⟨rfl, ?_, ?_⟩
    · intro hbet
      simp only at hbet
      simp only [hbet, if_pos]
      have hne : (unique_non_owner_bettors ptm tom t1 t2 w b1 b2).filter
          (fun p => p.2 = w) ≠ [] := by
        refine List.ne_nil_of_mem (a := p) (List.mem_filter.mpr ⟨hp, by simp [hbet]⟩)
      rw [pool_share_nonempty hne]
    · intro hbet
      simp only at hbet
      simp only [if_neg hbet]

-- C1 witness: the concrete call MI vs CSK, winner MI, bettors ["Jagjit"]
-- and [] has 13 unique non-owner bettors with 1 on the winning side, and
-- Jagjit's record gets round(13*8/1 - 8, 2) = 96.
unseal Rat.mul Rat.inv Rat.add Rat.sub in
theorem claim_C1_witness :
    (⟨"Jagjit", "MI vs CSK", "Non-owner", "DC", some "MI", 8, 96⟩ : BetRecord).netResult
      = pyRound2 ((((13 : ℕ) : ℚ) * 8) / (((1 : ℕ) : ℚ)) - 8) := by
  have h := (claim_C1 load_players (team_owners load_players)
    (some "MI") (some "CSK") (some "MI") ["Jagjit"] []).2
    ⟨"Jagjit", "MI vs CSK", "Non-owner", "DC", some "MI", 8, 96⟩
    (by decide) rfl
  have hb := h.2.1 rfl
  rw [show (unique_non_owner_bettors load_players (team_owners load_players)
      (some "MI") (some "CSK") (some "MI") ["Jagjit"] []).length = 13 from by decide,
    show ((unique_non_owner_bettors load_players (team_owners load_players)
      (some "MI") (some "CSK") (some "MI") ["Jagjit"] []).filter
        (fun p => p.2 = some "MI")).length = 1 from by decide] at hb
  exact hb

/-- C2: in every settlement call (with the roster-derived maps and a
duplicate-free roster), each owner of team1 or team2 — a roster participant
whose home team is one of the two sides — gets exactly one record, an
Owner record betting on their own home team, whose stake follows the
owner-count schedule (`spec_owner_stake`) and whose net result is plus the
stake when the home team equals the winner and minus the stake
otherwise. -/
theorem claim_C2 (players : List (String × String))
    (hnd : (players.map Prod.fst).Nodup) (t1 t2 : String) (w : Option String)
    (b1 b2 : List String) (o ht : String) (hht : (o, ht) ∈ players)
    (hside : ht = t1 ∨ ht = t2) :
    (compute_betting_result_df (some t1) (some t2) w b1 b2 players
        (team_owners players)).countP (fun r => r.name == o) = 1 ∧
    ∀ r ∈ compute_betting_result_df (some t1) (some t2) w b1 b2 players
        (team_owners players), r.name = o →
      r.type = "Owner" ∧ r.team = ht ∧ r.betOn = some ht ∧
      r.betAmount = spec_owner_stake players t1 t2 o ∧
      r.netResult = if some ht = w then spec_owner_stake players t1 t2 o
        else -(spec_owner_stake players t1 t2 o) := by
  have ho : o ∈ team_owners players t1 ∨ o ∈ team_owners players t2 := by
    rcases hside with e | e
    · exact Or.inl (mem_team_owners.mpr (e ▸ hht))
    · exact Or.inr (mem_team_owners.mpr (e ▸ hht))
  have hao : o ∈ all_owners (team_owners players) (some t1) (some t2) := by
    rw [mem_all_owners, owners_set_eq_of_nodup hnd, owners_set_eq_of_nodup hnd]
    exact ho
  have hdg : dictGet players o = some ht := dictGet_of_mem_nodup hnd hht
  constructor
  · rw [countP_compute, countP_name_owner_rows, countP_name_non_owner_rows,
      if_pos hao, if_neg (fun hk => not_owner_of_mem_nob_keys hk hao)]
  · intro r hr hname
    rcases mem_compute_iff.mp hr with hro | hrn
    · rcases mem_owner_rows.mp hro with ⟨p, hp, he⟩
      have hval : p.2 = lastAssign
          (owner_assigns (team_owners players) (some t1) (some t2)) p.1 :=
        mem_pyDictItems hp
      subst he
      change p.1 = o at hname
      refine ⟨rfl, ?_, ?_, ?_, ?_⟩
      · show (dictGet players p.1).getD "KeyError" = ht
        rw [hname, hdg]
        rfl
      · show some ((dictGet players p.1).getD "KeyError") = some ht
        rw [hname, hdg]
        rfl
      · show p.2 = spec_owner_stake players t1 t2 o
        rw [hval, hname, lastAssign_owner_assigns hnd ho]
      · show (if some ((dictGet players p.1).getD "KeyError") = w
            then p.2 else -p.2) =
          if some ht = w then spec_owner_stake players t1 t2 o
            else -(spec_owner_stake players t1 t2 o)
        rw [hval, hname, hdg, lastAssign_owner_assigns hnd ho]
        rfl
    · exfalso
      rcases mem_non_owner_rows.mp hrn with ⟨p, hp, he⟩
      subst he
      change p.1 = o at hname
      have hk : p.1 ∈ (non_owner_bettors players (team_owners players)
          (some t1) (some t2) w b1 b2).map Prod.fst :=
        List.mem_map_of_mem Prod.fst (mem_pyDedup hp)
      exact not_owner_of_mem_nob_keys (hname ▸ hk) hao

-- C2 witness: MI vs DC, winner DC, owner counts (2,1): Utkarsh (an MI
-- owner) gets exactly one record, an Owner record staked 7.5 = 15/2.
unseal Rat.mul Rat.inv Rat.add Rat.sub in
theorem claim_C2_witness :
    (compute_betting_result_df (some "MI") (some "DC") (some "DC") [] []
      load_players (team_owners load_players)).countP
        (fun r => r.name == "Utkarsh") = 1 ∧
    (⟨"Utkarsh", "MI vs DC", "Owner", "MI", some "MI", 15 / 2,
        -(15 / 2)⟩ : BetRecord).betAmount =
      spec_owner_stake load_players "MI" "DC" "Utkarsh" := by
  have h := claim_C2 load_players (by decide) "MI" "DC" (some "DC") [] []
    "Utkarsh" "MI" (by decide) (Or.inl rfl)
  refine ⟨h.1, ?_⟩
  have h2 := h.2 ⟨"Utkarsh", "MI vs DC", "Owner", "MI", some "MI", 15 / 2,
    -(15 / 2)⟩ (by decide) rfl
  exact h2.2.2.2.1

-- C3 counterexample: with team1 bettors ["Zzz"], the non-roster name
-- "Zzz" appears in the output records, so the output name set is not the
-- roster.
unseal Rat.mul Rat.inv Rat.add Rat.sub in
theorem claim_C3_cex :
    ((compute_betting_result_df (some "MI") (some "CSK") (some "MI") ["Zzz"] []
        load_players (team_owners load_players)).map
          (fun r => r.name)).contains "Zzz" = true ∧
    (load_players.map Prod.fst).contains "Zzz" = false := by
  decide

/-- C3 (amended): for every settlement call with the roster-derived maps,
the set of participant names appearing in the output equals the roster
names together with the names listed in either bettor list — every roster
participant appears, and every appearing name is a roster participant or
a listed bettor (non-roster bettors appear as "Unknown"-team non-owners,
so names outside the roster can appear). -/
theorem claim_C3_amended (players : List (String × String))
    (t1 t2 w : Option String) (b1 b2 : List String) (x : String) :
    (∃ r ∈ compute_betting_result_df t1 t2 w b1 b2 players
        (team_owners players), r.name = x) ↔
      x ∈ players.map Prod.fst ∨ x ∈ b1 ∨ x ∈ b2 := by
  rw [exists_name_iff, nob_keys_eq]
  constructor
  · rintro (h | h)
    · left
      rcases mem_all_owners.mp h with h | h
      · exact mem_owners_set_roster h
      · exact mem_owners_set_roster h
    · rcases List.mem_append.mp h with h | h3
      · rcases List.mem_append.mp h with h1 | h2
        · exact Or.inr (Or.inl (mem_clean_bettors.mp h1).1)
        · exact Or.inr (Or.inr (mem_clean_bettors.mp h2).1)
      · exact Or.inl (mem_non_voters.mp h3).1
  · intro h
    by_cases hao : x ∈ all_owners (team_owners players) t1 t2
    · exact Or.inl hao
    · right
      rcases h with hx | hx | hx
      · by_cases hv : x ∈ b1 ++ b2
        · rcases List.mem_append.mp hv with hv | hv
          · exact List.mem_append.mpr (Or.inl (List.mem_append.mpr
              (Or.inl (mem_clean_bettors.mpr ⟨hv, hao⟩))))
          · exact List.mem_append.mpr (Or.inl (List.mem_append.mpr
              (Or.inr (mem_clean_bettors.mpr ⟨hv, hao⟩))))
        · exact List.mem_append.mpr (Or.inr (mem_non_voters.mpr ⟨hx, hv, hao⟩))
      · exact List.mem_append.mpr (Or.inl (List.mem_append.mpr
          (Or.inl (mem_clean_bettors.mpr ⟨hx, hao⟩))))
      · exact List.mem_append.mpr (Or.inl (List.mem_append.mpr
          (Or.inr (mem_clean_bettors.mpr ⟨hx, hao⟩))))

-- C3 witness: at the concrete MI vs CSK call with no bettors, the roster
-- participant "Jagjit" appears in the output.
theorem claim_C3_witness :
    ∃ r ∈ compute_betting_result_df (some "MI") (some "CSK") (some "MI")
      [] [] load_players (team_owners load_players), r.name = "Jagjit" :=
  (claim_C3_amended load_players (some "MI") (some "CSK") (some "MI")
    [] [] "Jagjit").mpr (Or.inl (by decide))

/-- C4: for every match with distinct teams and a winner equal to one of
them, a roster participant who owns neither side and appears in neither
bettor list gets exactly one record: a Non-owner record staked 8 on the
losing team with net result exactly -8. -/
theorem claim_C4 (players : List (String × String)) (t1 t2 winv : String)
    (hne : t1 ≠ t2) (hwin : winv = t1 ∨ winv = t2)
    (b1 b2 : List String) (x : String)
    (hx : x ∈ players.map Prod.fst)
    (ho1 : x ∉ team_owners players t1) (ho2 : x ∉ team_owners players t2)
    (hb1 : x ∉ b1) (hb2 : x ∉ b2) :
    (compute_betting_result_df (some t1) (some t2) (some winv) b1 b2 players
        (team_owners players)).countP (fun r => r.name == x) = 1 ∧
    ∀ r ∈ compute_betting_result_df (some t1) (some t2) (some winv) b1 b2
        players (team_owners players), r.name = x →
      r.type = "Non-owner" ∧ r.betAmount = 8 ∧
      r.betOn = some (if winv = t1 then t2 else t1) ∧ r.netResult = -8 := by
  have hao : x ∉ all_owners (team_owners players) (some t1) (some t2) := by
    intro h
    rcases mem_all_owners.mp h with h | h
    · unfold owners_set optOwners at h
      rw [mem_dedupNames] at h
      exact ho1 h
    · unfold owners_set optOwners at h
      rw [mem_dedupNames] at h
      exact ho2 h
  have hvote : x ∉ b1 ++ b2 := by
    intro h
    rcases List.mem_append.mp h with h | h
    · exact hb1 h
    · exact hb2 h
  have hnv : x ∈ non_voters players (team_owners players) (some t1) (some t2)
      b1 b2 := mem_non_voters.mpr ⟨hx, hvote, hao⟩
  have hkey : x ∈ (non_owner_bettors players (team_owners players) (some t1)
      (some t2) (some winv) b1 b2).map Prod.fst := by
    rw [nob_keys_eq]
    exact List.mem_append.mpr (Or.inr hnv)
  have hlt : losing_team (some t1) (some t2) (some winv) =
      some (if winv = t1 then t2 else t1) := by
    unfold losing_team
    by_cases h : winv = t1
    · simp [h]
    · simp [h]
  constructor
  · rw [countP_compute, countP_name_owner_rows, countP_name_non_owner_rows,
      if_neg hao, if_pos hkey]
  · intro r hr hname
    rcases mem_compute_iff.mp hr with hro | hrn
    · exfalso
      rcases mem_owner_rows.mp hro with ⟨p, hp, he⟩
      have hk := mem_pyDictItems_key hp
      rw [mem_keys_owner_assigns] at hk
      have hpn : r.name = p.1 := by rw [he]
      rw [hname] at hpn
      exact hao (hpn ▸ hk)
    · rcases mem_non_owner_rows.mp hrn with ⟨p, hp, he⟩
      subst he
      change p.1 = x at hname
      have hpnob := mem_pyDedup hp
      unfold non_owner_bettors at hpnob
      rcases List.mem_append.mp hpnob with hseg | hseg3
      · exfalso
        rcases List.mem_append.mp hseg with hseg1 | hseg2
        · rcases List.mem_map.mp hseg1 with ⟨b, hb, hbe⟩
          have hbx : b = x := by rw [← hname, ← hbe]
          exact hb1 (hbx ▸ (mem_clean_bettors.mp hb).1)
        · rcases List.mem_map.mp hseg2 with ⟨b, hb, hbe⟩
          have hbx : b = x := by rw [← hname, ← hbe]
          exact hb2 (hbx ▸ (mem_clean_bettors.mp hb).1)
      · rcases List.mem_map.mp hseg3 with ⟨nv, hnvm, hnve⟩
        have hp2 : p.2 = losing_team (some t1) (some t2) (some winv) := by
          rw [← hnve]
        have hlose_ne : losing_team (some t1) (some t2) (some winv) ≠
            some winv := by
          rw [hlt]
          intro hcon
          rw [Option.some.injEq] at hcon
          by_cases h1 : winv = t1
          · rw [if_pos h1] at hcon
            exact hne (h1 ▸ hcon).symm
          · rw [if_neg h1] at hcon
            exact h1 hcon.symm
        refine ⟨rfl, rfl, ?_, ?_⟩
        · show p.2 = some (if winv = t1 then t2 else t1)
          rw [hp2, hlt]
        · show (if p.2 = some winv then _ else -8 : ℚ) = -8
          rw [if_neg (by rw [hp2]; exact hlose_ne)]

-- C4 witness: MI vs CSK, winner MI, bettors ["Jagjit"] / []: the GT owner
-- Adithya voted for no one, owns neither side, and gets exactly one
-- Non-owner record on the loser CSK netting -8.
unseal Rat.mul Rat.inv Rat.add Rat.sub in
theorem claim_C4_witness :
    (compute_betting_result_df (some "MI") (some "CSK") (some "MI")
      ["Jagjit"] [] load_players (team_owners load_players)).countP
        (fun r => r.name == "Adithya") = 1 ∧
    (⟨"Adithya", "MI vs CSK", "Non-owner", "GT", some "CSK", 8,
        -8⟩ : BetRecord).netResult = -8 := by
  have h := claim_C4 load_players "MI" "CSK" "MI" (by decide) (Or.inl rfl)
    ["Jagjit"] [] "Adithya" (by decide) (by decide) (by decide) (by decide)
    (by decide)
  refine ⟨h.1, ?_⟩
  exact (h.2 ⟨"Adithya", "MI vs CSK", "Non-owner", "GT", some "CSK", 8, -8⟩
    (by decide) rfl).2.2.2

/-- C5: in every settlement call, a non-owner name listed in either bettor
list yields exactly one Non-owner record, attributed to the team of its
first occurrence in the concatenation (cleaned team1 bettors, then cleaned
team2 bettors, then auto-assigned non-voters): team1 if it appears in
team1Bettors at all, else team2 — in particular a non-owner listed in both
bettor lists is counted once with BetOn = team1. -/
theorem claim_C5 (ptm : List (String × String)) (tom : String → List String)
    (t1 t2 w : Option String) (b1 b2 : List String) (x : String)
    (hb : x ∈ b1 ∨ x ∈ b2) (hao : x ∉ all_owners tom t1 t2) :
    (compute_betting_result_df t1 t2 w b1 b2 ptm tom).countP
        (fun r => r.name == x) = 1 ∧
    ∀ r ∈ compute_betting_result_df t1 t2 w b1 b2 ptm tom, r.name = x →
      r.type = "Non-owner" ∧ r.betOn = (if x ∈ b1 then t1 else t2) := by
  have hkey : x ∈ (non_owner_bettors ptm tom t1 t2 w b1 b2).map Prod.fst := by
    rw [nob_keys_eq]
    by_cases h1 : x ∈ b1
    · exact List.mem_append.mpr (Or.inl (List.mem_append.mpr
        (Or.inl (mem_clean_bettors.mpr ⟨h1, hao⟩))))
    · exact List.mem_append.mpr (Or.inl (List.mem_append.mpr
        (Or.inr (mem_clean_bettors.mpr ⟨hb.resolve_left h1, hao⟩))))
  constructor
  · rw [countP_compute, countP_name_owner_rows, countP_name_non_owner_rows,
      if_neg hao, if_pos hkey]
  · intro r hr hname
    rcases mem_compute_iff.mp hr with hro | hrn
    · exfalso
      rcases mem_owner_rows.mp hro with ⟨p, hp, he⟩
      have hk := mem_pyDictItems_key hp
      rw [mem_keys_owner_assigns] at hk
      have hpn : r.name = p.1 := by rw [he]
      rw [hname] at hpn
      exact hao (hpn ▸ hk)
    · rcases mem_non_owner_rows.mp hrn with ⟨p, hp, he⟩
      subst he
      change p.1 = x at hname
      have hfind := @find?_pyDedup (String × Option String) Prod.fst _ _ hp
      rw [hname] at hfind
      unfold non_owner_bettors at hfind
      have hpe : p = (x, if x ∈ b1 then t1 else t2) := by
        by_cases h1 : x ∈ b1
        · have hc1 : x ∈ clean_bettors b1 (all_owners tom t1 t2) :=
            mem_clean_bettors.mpr ⟨h1, hao⟩
          have hf1 : ((clean_bettors b1 (all_owners tom t1 t2)).map
              (fun b => (b, t1))).find? (fun a => a.1 == x) = some (x, t1) := by
            rw [List.find?_map]
            have hco : ((fun a : String × Option String => a.1 == x) ∘
                (fun b : String => (b, t1))) = fun b => b == x := rfl
            rw [hco, find?_beq_self hc1]
            rfl
          have hf12 : ((clean_bettors b1 (all_owners tom t1 t2)).map
                (fun b => (b, t1)) ++
              (clean_bettors b2 (all_owners tom t1 t2)).map
                (fun b => (b, t2))).find? (fun a => a.1 == x) =
              some (x, t1) := by
            rw [find?_append_left (by rw [hf1]; rfl)]
            exact hf1
          rw [find?_append_left (by rw [hf12]; rfl), hf12] at hfind
          rw [if_pos h1]
          exact (Option.some.injEq _ _).mp hfind.symm
        · have hf1 : ((clean_bettors b1 (all_owners tom t1 t2)).map
              (fun b => (b, t1))).find? (fun a => a.1 == x) = none := by
            rw [List.find?_eq_none]
            intro a ha
            rcases List.mem_map.mp ha with ⟨b, hbm, hbe⟩
            have hab : a.1 = b := by rw [← hbe]
            rw [hab]
            simp only [beq_iff_eq]
            intro hbx
            exact h1 (hbx ▸ (mem_clean_bettors.mp hbm).1)
          have hc2 : x ∈ clean_bettors b2 (all_owners tom t1 t2) :=
            mem_clean_bettors.mpr ⟨hb.resolve_left h1, hao⟩
          have hf2 : ((clean_bettors b2 (all_owners tom t1 t2)).map
              (fun b => (b, t2))).find? (fun a => a.1 == x) = some (x, t2) := by
            rw [List.find?_map]
            have hco : ((fun a : String × Option String => a.1 == x) ∘
                (fun b : String => (b, t2))) = fun b => b == x := rfl
            rw [hco, find?_beq_self hc2]
            rfl
          have hf12 : ((clean_bettors b1 (all_owners tom t1 t2)).map
                (fun b => (b, t1)) ++
              (clean_bettors b2 (all_owners tom t1 t2)).map
                (fun b => (b, t2))).find? (fun a => a.1 == x) =
              some (x, t2) := by
            rw [find?_append_none hf1]
            exact hf2
          rw [find?_append_left (by rw [hf12]; rfl), hf12] at hfind
          rw [if_neg h1]
          exact (Option.some.injEq _ _).mp hfind.symm
      refine ⟨rfl, ?_⟩
      show p.2 = if x ∈ b1 then t1 else t2
      rw [hpe]

-- C5 witness: "Jagjit" listed in both bettor lists of MI vs CSK gets
-- exactly one record, attributed to team1 (MI), the first occurrence.
unseal Rat.mul Rat.inv Rat.add Rat.sub in
theorem claim_C5_witness :
    (compute_betting_result_df (some "MI") (some "CSK") (some "MI")
      ["Jagjit"] ["Jagjit"] load_players (team_owners load_players)).countP
        (fun r => r.name == "Jagjit") = 1 ∧
    (⟨"Jagjit", "MI vs CSK", "Non-owner", "DC", some "MI", 8,
        96⟩ : BetRecord).betOn =
      (if "Jagjit" ∈ ["Jagjit"] then some "MI" else some "CSK") := by
  have h := claim_C5 load_players (team_owners load_players) (some "MI")
    (some "CSK") (some "MI") ["Jagjit"] ["Jagjit"] "Jagjit"
    (Or.inl (by decide)) (by decide)
  refine ⟨h.1, ?_⟩
  exact (h.2 ⟨"Jagjit", "MI vs CSK", "Non-owner", "DC", some "MI", 8, 96⟩
    (by decide) rfl).2

-- C6 counterexample: MI vs CSK, winner MI, no explicit bettors: all 13
-- non-owner bettors are auto-assigned to the loser, the pool is not
-- redistributed, and the Non-owner NetResult sum is -104, far outside the
-- per-record half-cent rounding tolerance 13/200.
unseal Rat.mul Rat.inv Rat.add Rat.sub in
theorem claim_C6_cex :
    (((compute_betting_result_df (some "MI") (some "CSK") (some "MI") [] []
        load_players (team_owners load_players)).filter
          (fun r => r.type == "Non-owner")).map (fun r => r.netResult)).sum
      = -104 ∧
    ¬ (|(-104 : ℚ)| ≤ ((13 : ℕ) : ℚ) / 200) ∧
    ((compute_betting_result_df (some "MI") (some "CSK") (some "MI") [] []
        load_players (team_owners load_players)).filter
          (fun r => r.type == "Non-owner")).length = 13 := by
  refine ⟨by decide, ?_, by decide⟩
  rw [abs_of_nonpos (by norm_num)]
  norm_num

/-- C6 (amended): for every settlement call in which at least one unique
non-owner bettor is assigned to the winning team, the sum of NetResult
over the Non-owner records is 0 up to the per-winner rounding of the share
to 2 decimal places: its absolute value is at most n/200 with n the count
of unique non-owner bettors.  (When no non-owner bettor is on the winning
side the pool is not redistributed and the sum is -8·n, so the hypothesis
is necessary.) -/
theorem claim_C6_amended (ptm : List (String × String))
    (tom : String → List String) (t1 t2 w : Option String)
    (b1 b2 : List String)
    (hw : (unique_non_owner_bettors ptm tom t1 t2 w b1 b2).filter
      (fun p => p.2 = w) ≠ []) :
    |(((compute_betting_result_df t1 t2 w b1 b2 ptm tom).filter
        (fun r => r.type == "Non-owner")).map (fun r => r.netResult)).sum| ≤
      ((unique_non_owner_bettors ptm tom t1 t2 w b1 b2).length : ℚ) / 200 := by
  rw [sum_net_non_owner]
  have hcount : (unique_non_owner_bettors ptm tom t1 t2 w b1 b2).countP
      (fun p => decide (p.2 = w)) =
      ((unique_non_owner_bettors ptm tom t1 t2 w b1 b2).filter
        (fun p => p.2 = w)).length :=
    List.countP_eq_length_filter _ _
  have hsplit : (unique_non_owner_bettors ptm tom t1 t2 w b1 b2).countP
        (fun p => decide (p.2 = w)) +
      (unique_non_owner_bettors ptm tom t1 t2 w b1 b2).countP
        (fun p => !(decide (p.2 = w))) =
      (unique_non_owner_bettors ptm tom t1 t2 w b1 b2).length := by
    have h := List.length_eq_countP_add_countP
      (fun p : String × Option String => decide (p.2 = w))
      (unique_non_owner_bettors ptm tom t1 t2 w b1 b2)
    have hc : (unique_non_owner_bettors ptm tom t1 t2 w b1 b2).countP
        (fun a => decide ¬(decide (a.2 = w) = true)) =
        (unique_non_owner_bettors ptm tom t1 t2 w b1 b2).countP
        (fun p => !(decide (p.2 = w))) :=
      List.countP_congr (fun a _ => by simp)
    rw [hc] at h
    omega
  have hwpos : 0 < ((unique_non_owner_bettors ptm tom t1 t2 w b1 b2).filter
      (fun p => p.2 = w)).length := List.length_pos.mpr hw
  have hle : ((unique_non_owner_bettors ptm tom t1 t2 w b1 b2).filter
      (fun p => p.2 = w)).length ≤
      (unique_non_owner_bettors ptm tom t1 t2 w b1 b2).length :=
    List.length_filter_le _ _
  have hneg : (unique_non_owner_bettors ptm tom t1 t2 w b1 b2).countP
      (fun p => !(decide (p.2 = w))) =
      (unique_non_owner_bettors ptm tom t1 t2 w b1 b2).length -
      ((unique_non_owner_bettors ptm tom t1 t2 w b1 b2).filter
        (fun p => p.2 = w)).length := by
    rw [← hcount]
    omega
  rw [hcount, hneg, pool_share_nonempty hw]
  exact abs_sum_bound hwpos hle _ (abs_pyRound2_sub _)

-- C6 witness: with Jagjit betting MI in MI vs CSK (winner MI) the winning
-- side is non-empty and the Non-owner NetResult sum stays within the
-- rounding tolerance.
unseal Rat.mul Rat.inv Rat.add Rat.sub in
theorem claim_C6_witness :
    (unique_non_owner_bettors load_players (team_owners load_players)
      (some "MI") (some "CSK") (some "MI") ["Jagjit"] []).filter
        (fun p => p.2 = some "MI") ≠ [] ∧
    |(((compute_betting_result_df (some "MI") (some "CSK") (some "MI")
        ["Jagjit"] [] load_players (team_owners load_players)).filter
          (fun r => r.type == "Non-owner")).map (fun r => r.netResult)).sum| ≤
      ((unique_non_owner_bettors load_players (team_owners load_players)
        (some "MI") (some "CSK") (some "MI") ["Jagjit"] []).length : ℚ) / 200 :=
  ⟨by decide, claim_C6_amended load_players (team_owners load_players)
    (some "MI") (some "CSK") (some "MI") ["Jagjit"] [] (by decide)⟩

/-- C7: rebuilding the results store equals invoking the settlement engine
once per match in history order and concatenating the per-match outputs;
each match's records are sorted by participant name ascending
(lexicographically); no sorting is applied across matches — the
concatenation preserves match order and then per-match name order. -/
theorem claim_C7 (history : List MatchData) :
    regenerate_results history = (history.map settle_match).flatten ∧
    ∀ m ∈ history, List.Sorted byName (settle_match m) := by
  refine ⟨rfl, ?_⟩
  intro m _
  unfold settle_match
  exact compute_sorted

-- C7 witness: the single-match history MI vs CSK is rebuilt with its
-- records sorted by name.
theorem claim_C7_witness :
    List.Sorted byName (settle_match
      ⟨some "MI", some "CSK", some "MI", [], [], none, some "0"⟩) :=
  (claim_C7 [⟨some "MI", some "CSK", some "MI", [], [], none, some "0"⟩]).2
    ⟨some "MI", some "CSK", some "MI", [], [], none, some "0"⟩ (by decide)

-- C8 counterexample: a match record with every field missing is not
-- skipped: replaying the one-record history produces 17 bet records
-- (the whole roster settled against None teams), not the empty rebuild
-- that skipping the malformed record would give.
unseal Rat.mul Rat.inv Rat.add Rat.sub in
theorem claim_C8_cex :
    regenerate_results [⟨none, none, none, [], [], none, none⟩] ≠ [] ∧
    (regenerate_results [⟨none, none, none, [], [], none, none⟩]).length = 17 ∧
    regenerate_results [] = [] :=
  ⟨by decide, by decide, rfl⟩

/-- C8 (amended): during ledger replay a malformed match record (missing
fields) is not skipped: its missing team/winner fields are read as None
and missing bettor lists as empty, the record is settled anyway and
contributes records, and replay continues with the surrounding matches
without aborting — every record in the history, well-formed or not,
contributes its settlement output in order. -/
theorem claim_C8_amended (pre : List MatchData) (m : MatchData)
    (post : List MatchData) :
    regenerate_results (pre ++ m :: post) =
      regenerate_results pre ++ settle_match m ++ regenerate_results post := by
  unfold regenerate_results
  rw [List.map_append, List.map_cons, List.flatten_append, List.flatten_cons,
    List.append_assoc]

/-- C9: the claim that stored ids stay unique is right as a data-model
invariant, but the code violates it: `save_match_data` stamps
`id = str(len(store))`, so after save, save, delete "0", save on an empty
store the two surviving records both carry id "1". -/
theorem claim_C9_bug :
    ((applyOps [.save "t1" ⟨none, none, none, [], [], none, none⟩,
        .save "t2" ⟨none, none, none, [], [], none, none⟩,
        .delete "0",
        .save "t3" ⟨none, none, none, [], [], none, none⟩]).map
      (fun m => m.id)) = [some "1", some "1"] ∧
    ¬ (((applyOps [.save "t1" ⟨none, none, none, [], [], none, none⟩,
        .save "t2" ⟨none, none, none, [], [], none, none⟩,
        .delete "0",
        .save "t3" ⟨none, none, none, [], [], none, none⟩]).map
      (fun m => m.id)).Nodup) :=
  ⟨by decide, by decide⟩

/-- C10: `update_match_data` with an id present in the store replaces
exactly the first record carrying that id — keeping that record's
timestamp and its id — and leaves every other record unchanged in content
and order; with an id absent from the store it returns the store
unchanged. -/
theorem claim_C10 (matchId : String) (upd : MatchData) :
    (∀ store : List MatchData, (∀ x ∈ store, x.id ≠ some matchId) →
      update_match_data matchId upd store = store) ∧
    (∀ (pre : List MatchData) (m : MatchData) (post : List MatchData),
      (∀ x ∈ pre, x.id ≠ some matchId) → m.id = some matchId →
      update_match_data matchId upd (pre ++ m :: post) =
        pre ++ { upd with timestamp := m.timestamp, id := some matchId } ::
          post) := by
  constructor
  · intro store h
    induction store with
    | nil => rfl
    | cons a rest ih =>
      unfold update_match_data
      rw [if_neg (h a (List.mem_cons_self _ _)),
        ih (fun x hx => h x (List.mem_cons_of_mem _ hx))]
  · intro pre m post hpre hm
    induction pre with
    | nil =>
      simp only [List.nil_append]
      unfold update_match_data
      rw [if_pos hm]
    | cons a rest ih =>
      simp only [List.cons_append]
      unfold update_match_data
      rw [if_neg (hpre a (List.mem_cons_self _ _)),
        ih (fun x hx => hpre x (List.mem_cons_of_mem _ hx))]

-- C10 witness: updating id "5" in a store without it changes nothing;
-- updating id "0" replaces the first record, preserving its timestamp
-- and id while taking the update's other fields.
theorem claim_C10_witness :
    update_match_data "5" ⟨some "C", some "D", some "C", [], [], some "tsX",
        some "9"⟩
      [⟨some "A", some "B", some "A", [], [], some "ts0", some "0"⟩] =
      [⟨some "A", some "B", some "A", [], [], some "ts0", some "0"⟩] ∧
    update_match_data "0" ⟨some "C", some "D", some "C", [], [], some "tsX",
        some "9"⟩
      ([] ++ ⟨some "A", some "B", some "A", [], [], some "ts0", some "0"⟩ ::
        [⟨some "E", some "F", some "E", [], [], some "ts1", some "1"⟩]) =
      [] ++ ⟨some "C", some "D", some "C", [], [], some "ts0", some "0"⟩ ::
        [⟨some "E", some "F", some "E", [], [], some "ts1", some "1"⟩] :=
  ⟨(claim_C10 "5" ⟨some "C", some "D", some "C", [], [], some "tsX",
      some "9"⟩).1
      [⟨some "A", some "B", some "A", [], [], some "ts0", some "0"⟩]
      (by decide),
   (claim_C10 "0" ⟨some "C", some "D", some "C", [], [], some "tsX",
      some "9"⟩).2
      [] ⟨some "A", some "B", some "A", [], [], some "ts0", some "0"⟩
      [⟨some "E", some "F", some "E", [], [], some "ts1", some "1"⟩]
      (by decide) rfl⟩

end IplBetting
